import Mathlib

/-!
Shallow embedding of the Trace9 repository: a family of Solana/Anchor
prediction-market programs (simple binary, multi-outcome, numeric-range,
time-series, parent-conditional), the trace9 oracle registry, and the
payment facilitator.  Machine integers (u64/u128) are modelled as `Nat`
together with the Rust checked arithmetic (`checked_add`, `checked_mul`,
`checked_sub`, `checked_div`), which fails exactly when the mathematical
result leaves the machine range.  Each Anchor instruction handler becomes a
pure function returning `Except E S`: an `Except.error` models the
transaction aborting with that error code (no state change and no lamport
transfer, per Anchor/Solana transaction semantics), and an `Except.ok`
carries the updated accounts together with the lamport amount moved, where
relevant.
-/

namespace Trace9Spec

/-- One more than the largest `u64` value. -/
def U64 : Nat := 2 ^ 64

/-- One more than the largest `u128` value. -/
def U128 : Nat := 2 ^ 128

/-- Rust `u64::checked_add`. -/
def checked_add (a b : Nat) : Option Nat :=
  if a + b < U64 then some (a + b) else none

/-- Rust `u64::checked_mul`. -/
def checked_mul (a b : Nat) : Option Nat :=
  if a * b < U64 then some (a * b) else none

/-- Rust `u64::checked_sub`. -/
def checked_sub (a b : Nat) : Option Nat :=
  if b ≤ a then some (a - b) else none

/-- Rust `u64::checked_div`: fails only on division by zero. -/
def checked_div (a b : Nat) : Option Nat :=
  if b = 0 then none else some (a / b)

/-- Rust `u128::checked_mul`. -/
def checked_mul_u128 (a b : Nat) : Option Nat :=
  if a * b < U128 then some (a * b) else none

/-- Rust `u128::checked_div`: fails only on division by zero. -/
def checked_div_u128 (a b : Nat) : Option Nat :=
  if b = 0 then none else some (a / b)

/-- Rust truncating cast `u128 as u64`. -/
def cast_u64 (a : Nat) : Nat := a % U64

/-- `Except` success test (mirrors asking whether a transaction succeeded). -/
def isOk {ε α : Type} : Except ε α → Bool
  | .ok _ => true
  | .error _ => false

theorem checked_add_eq_some {a b c : Nat} :
    checked_add a b = some c ↔ a + b < U64 ∧ c = a + b := by
  unfold checked_add
  split <;> simp_all [eq_comm]

theorem checked_mul_eq_some {a b c : Nat} :
    checked_mul a b = some c ↔ a * b < U64 ∧ c = a * b := by
  unfold checked_mul
  split <;> simp_all [eq_comm]

theorem checked_sub_eq_some {a b c : Nat} :
    checked_sub a b = some c ↔ b ≤ a ∧ c = a - b := by
  unfold checked_sub
  split <;> simp_all [eq_comm]

theorem checked_div_eq_some {a b c : Nat} :
    checked_div a b = some c ↔ b ≠ 0 ∧ c = a / b := by
  unfold checked_div
  split <;> simp_all [eq_comm]

/-- Fields of the trace9 `AnswerAccount` that the market programs read. -/
structure OracleAnswer where
  confidence_score : Nat
  bool_answer : Bool
  numeric_answer : Nat
deriving DecidableEq

namespace SimpleMarket

inductive MarketStatus where
  | Open
  | Closed
  | Resolved
  | Canceled
deriving DecidableEq

inductive Outcome where
  | Unresolved
  | Yes
  | No
deriving DecidableEq

inductive MarketError where
  | InvalidQuestion
  | InvalidResolutionTime
  | MarketNotOpen
  | MarketExpired
  | ZeroBet
  | Overflow
  | TooEarly
  | OracleNotAnswered
  | NotResolved
  | AlreadyClaimed
  | NoWinnings
  | TooEarlyToCancel
  | AlreadyAnswered
  | NotCanceled
  | NoPosition
deriving DecidableEq

/-- The fields of `MarketAccount` that the instruction handlers read or
write (identity, question text and creator are omitted: no handler branches
on them). -/
structure MarketAccount where
  resolution_time : Int
  yes_pool : Nat
  no_pool : Nat
  status : MarketStatus
  outcome : Outcome
  total_fees : Nat
deriving DecidableEq

structure Position where
  yes_amount : Nat
  no_amount : Nat
  claimed : Bool
deriving DecidableEq

/-- The fee expression of `take_position` (lib.rs lines 93-96):
`bet_amount.checked_mul(fee_percentage as u64).and_then(|x| x.checked_div(10000))`. -/
def market_fee (bet_amount fee_percentage : Nat) : Option Nat :=
  (checked_mul bet_amount fee_percentage).bind (fun x => checked_div x 10000)

/-- `take_position` (simple_prediction_market lib.rs lines 71-143).  The
bettor account's lamports are the bet; on success the returned pair is the
updated market and position (the full `bet_amount` moves into the market
account's lamports). -/
def take_position (fee_percentage : Nat) (now : Int) (m : MarketAccount)
    (p : Position) (bet_amount : Nat) (is_yes : Bool) :
    Except MarketError (MarketAccount × Position) :=
  if m.status ≠ MarketStatus.Open then .error .MarketNotOpen
  else if ¬ now < m.resolution_time then .error .MarketExpired
  else if ¬ bet_amount > 0 then .error .ZeroBet
  else
    match market_fee bet_amount fee_percentage with
    | none => .error .Overflow
    | some fee =>
      match checked_sub bet_amount fee with
      | none => .error .Overflow
      | some net_amount =>
        match checked_add m.total_fees fee with
        | none => .error .Overflow
        | some new_fees =>
          if is_yes then
            match checked_add m.yes_pool net_amount with
            | none => .error .Overflow
            | some yp =>
              match checked_add p.yes_amount net_amount with
              | none => .error .Overflow
              | some ya =>
                .ok ({ m with yes_pool := yp, total_fees := new_fees },
                     { p with yes_amount := ya })
          else
            match checked_add m.no_pool net_amount with
            | none => .error .Overflow
            | some np =>
              match checked_add p.no_amount net_amount with
              | none => .error .Overflow
              | some na =>
                .ok ({ m with no_pool := np, total_fees := new_fees },
                     { p with no_amount := na })

/-- `resolve_market` (lib.rs lines 146-190).  `accumulated_fees` is the
program-wide `MarketState.accumulated_fees`; the result carries its new
value. -/
def resolve_market (m : MarketAccount) (accumulated_fees : Nat) (now : Int)
    (ans : OracleAnswer) : Except MarketError (MarketAccount × Nat) :=
  if m.status ≠ MarketStatus.Open then .error .MarketNotOpen
  else if ¬ now ≥ m.resolution_time then .error .TooEarly
  else if ¬ ans.confidence_score > 0 then .error .OracleNotAnswered
  else
    match checked_add accumulated_fees m.total_fees with
    | none => .error .Overflow
    | some acc =>
      .ok ({ m with
              outcome := if ans.bool_answer then Outcome.Yes else Outcome.No,
              status := MarketStatus.Resolved }, acc)

/-- The payout expression of `claim_winnings` on the winning side
(lib.rs lines 208-228): stake times total pool, floor-divided by the
winning pool. -/
def payout_formula (s w l : Nat) : Nat := s * (w + l) / w

/-- The `winnings` if-else-if chain of `claim_winnings` (lib.rs lines
208-228), including its early `NoWinnings` returns. -/
def winnings_branch (m : MarketAccount) (p : Position) (total_pool : Nat) :
    Except MarketError Nat :=
  if m.outcome = Outcome.Yes ∧ p.yes_amount > 0 then
    if m.yes_pool = 0 then .error .NoWinnings
    else
      match (checked_mul p.yes_amount total_pool).bind
          (fun x => checked_div x m.yes_pool) with
      | none => .error .Overflow
      | some w => .ok w
  else if m.outcome = Outcome.No ∧ p.no_amount > 0 then
    if m.no_pool = 0 then .error .NoWinnings
    else
      match (checked_mul p.no_amount total_pool).bind
          (fun x => checked_div x m.no_pool) with
      | none => .error .Overflow
      | some w => .ok w
  else .error .NoWinnings

/-- `claim_winnings` (lib.rs lines 193-245).  On success, returns the
updated position and the lamports paid out of the market account. -/
def claim_winnings (m : MarketAccount) (p : Position) :
    Except MarketError (Position × Nat) :=
  if m.status ≠ MarketStatus.Resolved then .error .NotResolved
  else if p.claimed then .error .AlreadyClaimed
  else
    match checked_add m.yes_pool m.no_pool with
    | none => .error .Overflow
    | some total_pool =>
      match winnings_branch m p total_pool with
      | .error e => .error e
      | .ok winnings =>
        if ¬ winnings > 0 then .error .NoWinnings
        else .ok ({ p with claimed := true }, winnings)

/-- The 7-day refund window of `cancel_market` (lib.rs line 255). -/
def refund_period : Int := 7 * 24 * 60 * 60

/-- `cancel_market` (lib.rs lines 248-273). -/
def cancel_market (m : MarketAccount) (now : Int) (ans : OracleAnswer) :
    Except MarketError MarketAccount :=
  if m.status ≠ MarketStatus.Open then .error .MarketNotOpen
  else if ¬ now ≥ m.resolution_time + refund_period then .error .TooEarlyToCancel
  else if ¬ ans.confidence_score = 0 then .error .AlreadyAnswered
  else .ok { m with status := MarketStatus.Canceled }

/-- `claim_refund` (lib.rs lines 276-300).  On success, returns the updated
position and the lamports refunded. -/
def claim_refund (m : MarketAccount) (p : Position) :
    Except MarketError (Position × Nat) :=
  if m.status ≠ MarketStatus.Canceled then .error .NotCanceled
  else if p.claimed then .error .AlreadyClaimed
  else
    match checked_add p.yes_amount p.no_amount with
    | none => .error .Overflow
    | some refund_amount =>
      if ¬ refund_amount > 0 then .error .NoPosition
      else .ok ({ p with claimed := true }, refund_amount)

/-- The fee a successful `take_position` takes from a gross bet:
`floor(g * fee_percentage / 10000)`. -/
def fee_of (fee_percentage g : Nat) : Nat := g * fee_percentage / 10000

/-- The net amount a successful `take_position` credits to a pool. -/
def net_of (fee_percentage g : Nat) : Nat := g - fee_of fee_percentage g

/-- One take-position request: a bettor (modelled by an index), their gross
bet (the bettor account's lamports), and a side. -/
structure Request where
  user : Nat
  bet_amount : Nat
  is_yes : Bool

/-- One market step: a take-position request applied to the market account
and the requesting bettor's own position account. -/
def step (fee_percentage : Nat) (now : Int)
    (st : MarketAccount × (Nat → Position)) (r : Request) :
    Except MarketError (MarketAccount × (Nat → Position)) :=
  match take_position fee_percentage now st.1 (st.2 r.user) r.bet_amount r.is_yes with
  | .error e => .error e
  | .ok (m, p) => .ok (m, Function.update st.2 r.user p)

/-- A sequence of `take_position` calls against one market, failing if any
call fails. -/
def run (fee_percentage : Nat) (now : Int)
    (st : MarketAccount × (Nat → Position)) (reqs : List Request) :
    Except MarketError (MarketAccount × (Nat → Position)) :=
  reqs.foldlM (step fee_percentage now) st

end SimpleMarket

namespace RangeMarket

inductive MarketError where
  | InvalidQuestion
  | InvalidRange
  | InvalidDeadline
  | AlreadyResolved
  | MarketClosed
  | ZeroBet
  | Overflow
  | TooEarly
  | OracleNotAnswered
  | NotResolved
  | AlreadyClaimed
  | NotWinner
  | NoWinnings
deriving DecidableEq

/-- The fields of the range-market `MarketAccount` used by its handlers. -/
structure MarketAccount where
  lower_bound : Nat
  upper_bound : Nat
  in_range_pool : Nat
  out_range_pool : Nat
  total_fees : Nat
  deadline : Int
  resolved_at : Int
  resolved : Bool
  in_range : Bool
deriving DecidableEq

structure Position where
  in_range_amount : Nat
  out_range_amount : Nat
  claimed : Bool
deriving DecidableEq

/-- `take_position` (range_market lib.rs lines 69-132). -/
def take_position (fee_percentage : Nat) (now : Int) (m : MarketAccount)
    (p : Position) (bet_amount : Nat) (predict_in_range : Bool) :
    Except MarketError (MarketAccount × Position) :=
  if m.resolved then .error .AlreadyResolved
  else if ¬ now < m.deadline then .error .MarketClosed
  else if ¬ bet_amount > 0 then .error .ZeroBet
  else
    match (checked_mul bet_amount fee_percentage).bind
        (fun x => checked_div x 10000) with
    | none => .error .Overflow
    | some fee =>
      match checked_sub bet_amount fee with
      | none => .error .Overflow
      | some net_amount =>
        match checked_add m.total_fees fee with
        | none => .error .Overflow
        | some new_fees =>
          if predict_in_range then
            match checked_add m.in_range_pool net_amount with
            | none => .error .Overflow
            | some ip =>
              match checked_add p.in_range_amount net_amount with
              | none => .error .Overflow
              | some ia =>
                .ok ({ m with in_range_pool := ip, total_fees := new_fees },
                     { p with in_range_amount := ia })
          else
            match checked_add m.out_range_pool net_amount with
            | none => .error .Overflow
            | some op' =>
              match checked_add p.out_range_amount net_amount with
              | none => .error .Overflow
              | some oa =>
                .ok ({ m with out_range_pool := op', total_fees := new_fees },
                     { p with out_range_amount := oa })

/-- `resolve_market` (range_market lib.rs lines 134-159).  Note the oracle
gate on line 143: it requires `numeric_answer > 0`, and never reads the
answer's confidence score. -/
def resolve_market (m : MarketAccount) (now : Int) (ans : OracleAnswer) :
    Except MarketError MarketAccount :=
  if m.resolved then .error .AlreadyResolved
  else if ¬ now ≥ m.deadline then .error .TooEarly
  else if ¬ ans.numeric_answer > 0 then .error .OracleNotAnswered
  else
    .ok { m with
          in_range := m.lower_bound ≤ ans.numeric_answer ∧
                      ans.numeric_answer ≤ m.upper_bound,
          resolved := true,
          resolved_at := now }

/-- The payout expression of the range/conditional/time-series
`claim_winnings` (range_market lib.rs lines 187-194): stake plus stake
times losing pool, floor-divided by the winning pool. -/
def payout_formula (s w l : Nat) : Nat := s + s * l / w

/-- The `winning_pool` binding of `claim_winnings` (lib.rs lines 168-172). -/
def winning_pool (m : MarketAccount) : Nat :=
  if m.in_range then m.in_range_pool else m.out_range_pool

/-- The `losing_pool` binding of `claim_winnings` (lib.rs lines 173-177). -/
def losing_pool (m : MarketAccount) : Nat :=
  if m.in_range then m.out_range_pool else m.in_range_pool

/-- The `user_winning_amount` binding of `claim_winnings` (lib.rs lines
178-182). -/
def user_winning_amount (m : MarketAccount) (p : Position) : Nat :=
  if m.in_range then p.in_range_amount else p.out_range_amount

/-- `claim_winnings` (range_market lib.rs lines 161-208). -/
def claim_winnings (m : MarketAccount) (p : Position) :
    Except MarketError (Position × Nat) :=
  if ¬ m.resolved then .error .NotResolved
  else if p.claimed then .error .AlreadyClaimed
  else if ¬ user_winning_amount m p > 0 then .error .NotWinner
  else if ¬ winning_pool m > 0 then .error .NoWinnings
  else
    match (checked_mul (user_winning_amount m p) (losing_pool m)).bind
        (fun x => checked_div x (winning_pool m)) with
    | none => .error .Overflow
    | some share =>
      match checked_add (user_winning_amount m p) share with
      | none => .error .Overflow
      | some payout => .ok ({ p with claimed := true }, payout)

end RangeMarket

namespace TimeSeriesMarket

inductive MarketError where
  | InvalidQuestion
  | InvalidPeriodCount
  | DeadlinesNotAscending
  | MarketResolved
  | ZeroBet
  | Overflow
  | InvalidPeriod
  | PeriodAlreadyResolved
  | TooEarly
  | OracleNotAnswered
  | NotAllResolved
  | AlreadyClaimed
  | NotWinner
  | NoWinnings
deriving DecidableEq

structure TimePeriod where
  deadline : Int
  question_id : Nat
  result : Nat
  resolved : Bool
deriving DecidableEq

structure MarketAccount where
  periods : List TimePeriod
  success_pool : Nat
  failure_pool : Nat
  total_fees : Nat
  all_resolved : Bool
  all_success : Bool
deriving DecidableEq

structure Position where
  success_amount : Nat
  failure_amount : Nat
  claimed : Bool
deriving DecidableEq

/-- `take_position` (time_series_market lib.rs lines 79-138). -/
def take_position (fee_percentage : Nat) (m : MarketAccount)
    (p : Position) (bet_amount : Nat) (predict_all_success : Bool) :
    Except MarketError (MarketAccount × Position) :=
  if m.all_resolved then .error .MarketResolved
  else if ¬ bet_amount > 0 then .error .ZeroBet
  else
    match (checked_mul bet_amount fee_percentage).bind
        (fun x => checked_div x 10000) with
    | none => .error .Overflow
    | some fee =>
      match checked_sub bet_amount fee with
      | none => .error .Overflow
      | some net_amount =>
        match checked_add m.total_fees fee with
        | none => .error .Overflow
        | some new_fees =>
          if predict_all_success then
            match checked_add m.success_pool net_amount with
            | none => .error .Overflow
            | some sp =>
              match checked_add p.success_amount net_amount with
              | none => .error .Overflow
              | some sa =>
                .ok ({ m with success_pool := sp, total_fees := new_fees },
                     { p with success_amount := sa })
          else
            match checked_add m.failure_pool net_amount with
            | none => .error .Overflow
            | some fp' =>
              match checked_add p.failure_amount net_amount with
              | none => .error .Overflow
              | some fa =>
                .ok ({ m with failure_pool := fp', total_fees := new_fees },
                     { p with failure_amount := fa })

/-- `check_all_resolved` (time_series_market lib.rs lines 176-202): once
every period is resolved, the aggregate outcome is the logical AND of
"result nonzero" across periods. -/
def check_all_resolved (m : MarketAccount) : MarketAccount :=
  if m.periods.all (fun p => p.resolved) then
    { m with all_resolved := true,
             all_success := m.periods.all (fun p => p.result != 0) }
  else m

/-- `resolve_period` (time_series_market lib.rs lines 140-174).  Note the
oracle gate on line 159: it requires `numeric_answer > 0`, and never reads
the answer's confidence score. -/
def resolve_period (m : MarketAccount) (period_index : Nat) (now : Int)
    (ans : OracleAnswer) : Except MarketError MarketAccount :=
  if ¬ period_index < m.periods.length then .error .InvalidPeriod
  else
    let period := m.periods.getD period_index ⟨0, 0, 0, false⟩
    if period.resolved then .error .PeriodAlreadyResolved
    else if ¬ now ≥ period.deadline then .error .TooEarly
    else if ¬ ans.numeric_answer > 0 then .error .OracleNotAnswered
    else
      let updated := { period with result := ans.numeric_answer, resolved := true }
      .ok (check_all_resolved { m with periods := m.periods.set period_index updated })

end TimeSeriesMarket

namespace ConditionalMarket

inductive MarketStatus where
  | Active
  | ParentUnresolved
  | ConditionNotMet
  | Resolved
  | Cancelled
deriving DecidableEq

inductive MarketError where
  | InvalidQuestion
  | InvalidParentMarket
  | MarketNotActive
  | ZeroBet
  | Overflow
  | ParentNotResolved
  | CannotResolve
  | NotResolved
  | AlreadyClaimed
  | NotWinner
  | NoWinnings
  | NotCancelled
  | NoPosition
deriving DecidableEq

structure MarketAccount where
  required_parent_outcome : Nat
  yes_pool : Nat
  no_pool : Nat
  total_fees : Nat
  resolved_at : Int
  status : MarketStatus
  final_outcome : Bool
deriving DecidableEq

structure Position where
  yes_amount : Nat
  no_amount : Nat
  claimed : Bool
deriving DecidableEq

/-- The fields of the parent-market outcome account read by
`check_parent_market`. -/
structure ParentOutcome where
  outcome : Nat
  resolved : Bool
deriving DecidableEq

/-- `take_position` (conditional_market lib.rs lines 61-119). -/
def take_position (fee_percentage : Nat) (m : MarketAccount)
    (p : Position) (bet_amount : Nat) (prediction : Bool) :
    Except MarketError (MarketAccount × Position) :=
  if m.status ≠ MarketStatus.Active then .error .MarketNotActive
  else if ¬ bet_amount > 0 then .error .ZeroBet
  else
    match (checked_mul bet_amount fee_percentage).bind
        (fun x => checked_div x 10000) with
    | none => .error .Overflow
    | some fee =>
      match checked_sub bet_amount fee with
      | none => .error .Overflow
      | some bet_amount_net =>
        match checked_add m.total_fees fee with
        | none => .error .Overflow
        | some new_fees =>
          if prediction then
            match checked_add m.yes_pool bet_amount_net with
            | none => .error .Overflow
            | some yp =>
              match checked_add p.yes_amount bet_amount_net with
              | none => .error .Overflow
              | some ya =>
                .ok ({ m with yes_pool := yp, total_fees := new_fees },
                     { p with yes_amount := ya })
          else
            match checked_add m.no_pool bet_amount_net with
            | none => .error .Overflow
            | some np =>
              match checked_add p.no_amount bet_amount_net with
              | none => .error .Overflow
              | some na =>
                .ok ({ m with no_pool := np, total_fees := new_fees },
                     { p with no_amount := na })

/-- The parent-condition test of `check_parent_market` (conditional_market
lib.rs lines 135-136). -/
def condition_met (m : MarketAccount) (parent : ParentOutcome) : Prop :=
  (parent.outcome = 1 ∧ m.required_parent_outcome = 1) ∨
  (parent.outcome = 0 ∧ m.required_parent_outcome = 0)

instance (m : MarketAccount) (parent : ParentOutcome) :
    Decidable (condition_met m parent) := by
  unfold condition_met
  infer_instance

/-- `check_parent_market` (conditional_market lib.rs lines 121-152). -/
def check_parent_market (m : MarketAccount) (parent : ParentOutcome) :
    Except MarketError MarketAccount :=
  if m.status ≠ MarketStatus.Active then .error .MarketNotActive
  else if ¬ parent.resolved then .error .ParentNotResolved
  else if condition_met m parent then
    .ok { m with status := MarketStatus.ParentUnresolved }
  else
    .ok { m with status := MarketStatus.ConditionNotMet }

/-- `resolve_market` (conditional_market lib.rs lines 154-176): permitted
while the status is `ParentUnresolved` or still `Active`. -/
def resolve_market (m : MarketAccount) (now : Int) (outcome : Bool) :
    Except MarketError MarketAccount :=
  if ¬ (m.status = MarketStatus.ParentUnresolved ∨
        m.status = MarketStatus.Active) then .error .CannotResolve
  else
    .ok { m with final_outcome := outcome, resolved_at := now,
                 status := MarketStatus.Resolved }

/-- `claim_winnings` (conditional_market lib.rs lines 178-228). -/
def claim_winnings (m : MarketAccount) (p : Position) :
    Except MarketError (Position × Nat) :=
  if m.status ≠ MarketStatus.Resolved then .error .NotResolved
  else if p.claimed then .error .AlreadyClaimed
  else
    let winning_pool := if m.final_outcome then m.yes_pool else m.no_pool
    let losing_pool := if m.final_outcome then m.no_pool else m.yes_pool
    let user_winning_amount :=
      if m.final_outcome then p.yes_amount else p.no_amount
    if ¬ user_winning_amount > 0 then .error .NotWinner
    else if ¬ winning_pool > 0 then .error .NoWinnings
    else
      match (checked_mul user_winning_amount losing_pool).bind
          (fun x => checked_div x winning_pool) with
      | none => .error .Overflow
      | some share =>
        match checked_add user_winning_amount share with
        | none => .error .Overflow
        | some payout => .ok ({ p with claimed := true }, payout)

/-- `get_refund` (conditional_market lib.rs lines 230-254). -/
def get_refund (m : MarketAccount) (p : Position) :
    Except MarketError (Position × Nat) :=
  if ¬ (m.status = MarketStatus.ConditionNotMet ∨
        m.status = MarketStatus.Cancelled) then .error .NotCancelled
  else if p.claimed then .error .AlreadyClaimed
  else
    match checked_add p.yes_amount p.no_amount with
    | none => .error .Overflow
    | some refund_amount =>
      if ¬ refund_amount > 0 then .error .NoPosition
      else .ok ({ p with claimed := true }, refund_amount)

end ConditionalMarket

namespace MultiOutcomeMarket

inductive MarketStatus where
  | Open
  | Closed
  | Resolved
  | Canceled
deriving DecidableEq

inductive MarketError where
  | InvalidQuestion
  | InvalidOutcomeCount
  | InvalidResolutionTime
  | InvalidOutcomeLabel
  | MarketNotOpen
  | MarketExpired
  | InvalidOutcome
  | ZeroBet
  | Overflow
  | TooEarly
  | OracleNotAnswered
  | NotResolved
  | AlreadyClaimed
  | NoWinnings
deriving DecidableEq

structure MarketAccount where
  resolution_time : Int
  num_outcomes : Nat
  outcome_pools : List Nat
  status : MarketStatus
  winning_outcome : Nat
  total_pool : Nat
  total_fees : Nat
deriving DecidableEq

structure Position where
  amounts : List Nat
  claimed : Bool
deriving DecidableEq

/-- Rust `Vec::resize(len, 0)` restricted to growing, as used on position
amounts (multi_outcome_market lib.rs lines 118-120). -/
def resize_zero (l : List Nat) (n : Nat) : List Nat :=
  l ++ List.replicate (n - l.length) 0

/-- `take_position` (multi_outcome_market lib.rs lines 78-136). -/
def take_position (fee_percentage : Nat) (now : Int) (m : MarketAccount)
    (p : Position) (bet_amount : Nat) (outcome : Nat) :
    Except MarketError (MarketAccount × Position) :=
  if m.status ≠ MarketStatus.Open then .error .MarketNotOpen
  else if ¬ now < m.resolution_time then .error .MarketExpired
  else if ¬ outcome < m.num_outcomes then .error .InvalidOutcome
  else if ¬ bet_amount > 0 then .error .ZeroBet
  else
    match (checked_mul bet_amount fee_percentage).bind
        (fun x => checked_div x 10000) with
    | none => .error .Overflow
    | some fee =>
      match checked_sub bet_amount fee with
      | none => .error .Overflow
      | some net_amount =>
        match checked_add (m.outcome_pools.getD outcome 0) net_amount with
        | none => .error .Overflow
        | some pool' =>
          match checked_add m.total_pool net_amount with
          | none => .error .Overflow
          | some tp =>
            match checked_add m.total_fees fee with
            | none => .error .Overflow
            | some tf =>
              let amounts :=
                if p.amounts.length ≤ outcome then
                  resize_zero p.amounts (outcome + 1)
                else p.amounts
              match checked_add (amounts.getD outcome 0) net_amount with
              | none => .error .Overflow
              | some a' =>
                .ok ({ m with outcome_pools := m.outcome_pools.set outcome pool',
                              total_pool := tp, total_fees := tf },
                     { p with amounts := amounts.set outcome a' })

/-- `resolve_market` (multi_outcome_market lib.rs lines 138-175).  Line 150
derives the winning outcome as `numeric_answer as u8`, i.e. the numeric
answer reduced modulo 256, before the bounds check on line 151. -/
def resolve_market (m : MarketAccount) (accumulated_fees : Nat) (now : Int)
    (ans : OracleAnswer) : Except MarketError (MarketAccount × Nat) :=
  if m.status ≠ MarketStatus.Open then .error .MarketNotOpen
  else if ¬ now ≥ m.resolution_time then .error .TooEarly
  else
    let winning_outcome := ans.numeric_answer % 256
    if ¬ winning_outcome < m.num_outcomes then .error .InvalidOutcome
    else if ¬ ans.confidence_score > 0 then .error .OracleNotAnswered
    else
      match checked_add accumulated_fees m.total_fees with
      | none => .error .Overflow
      | some acc =>
        .ok ({ m with status := MarketStatus.Resolved,
                      winning_outcome := winning_outcome }, acc)

end MultiOutcomeMarket

namespace PaymentFacilitator

inductive PaymentFacilitatorError where
  | InvalidFee
  | InvalidAmount
  | PaymentUsed
  | Overflow
  | InvalidBatch
  | InvalidBatchSize
  | Unauthorized
  | NoFees
deriving DecidableEq

/-- The fee expression of `settle_payment` (payment_facilitator lib.rs
lines 42-45): the multiplication and division are performed in `u128` and
the result is cast back with `as u64`. -/
def settle_fee (amount platform_fee_bps : Nat) : Option Nat :=
  ((checked_mul_u128 amount platform_fee_bps).bind
      (fun f => checked_div_u128 f 10000)).map cast_u64

/-- The fee/net split of `settle_payment` (payment_facilitator lib.rs lines
42-47): wide-intermediate fee, then `amount.checked_sub(fee)` for the
recipient amount. -/
def settle_amounts (amount platform_fee_bps : Nat) :
    Except PaymentFacilitatorError (Nat × Nat) :=
  match settle_fee amount platform_fee_bps with
  | none => .error .Overflow
  | some fee =>
    match checked_sub amount fee with
    | none => .error .Overflow
    | some recipient_amount => .ok (fee, recipient_amount)

end PaymentFacilitator

namespace Trace9Oracle

inductive AnswerStatus where
  | Pending
  | Answered
  | Disputed
  | Finalized
deriving DecidableEq

inductive Trace9Error where
  | InvalidQuestion
  | InvalidDeadline
  | InsufficientFee
  | Unauthorized
  | AlreadyAnswered
  | AlreadyRefunded
  | InvalidConfidence
  | RefundTooEarly
  | NoBalance
  | Overflow
  | InvalidBatch
  | InvalidBatchSize
deriving DecidableEq

/-- The fields of the trace9 `QuestionAccount` used by `refund_question`
(participant identities are modelled as naturals). -/
structure QuestionAccount where
  requester : Nat
  bounty : Nat
  timestamp : Int
  deadline : Int
  status : AnswerStatus
  refunded : Bool
deriving DecidableEq

/-- The 7-day refund window of `refund_question` (trace9 lib.rs line 253). -/
def refund_period : Int := 7 * 24 * 60 * 60

/-- `refund_question` (trace9 lib.rs lines 242-280).  `caller` is the
signing requester account; on success the returned pair is the updated
question and the lamports transferred back to the requester.  Note line
255: the waiting period is measured from the question's creation
`timestamp`, not from its `deadline`. -/
def refund_question (caller : Nat) (q : QuestionAccount) (now : Int) :
    Except Trace9Error (QuestionAccount × Nat) :=
  if caller ≠ q.requester then .error .Unauthorized
  else if q.status ≠ AnswerStatus.Pending then .error .AlreadyAnswered
  else if q.refunded then .error .AlreadyRefunded
  else if ¬ now ≥ q.timestamp + refund_period then .error .RefundTooEarly
  else .ok ({ q with refunded := true, bounty := 0 }, q.bounty)

end Trace9Oracle

end Trace9Spec

namespace Trace9Spec

theorem add_div_le_div (x y w : Nat) : x / w + y / w ≤ (x + y) / w := by
  rcases Nat.eq_zero_or_pos w with h | h
  · subst h; simp
  · rw [Nat.le_div_iff_mul_le h, Nat.add_mul]
    exact Nat.add_le_add (Nat.div_mul_le_self x w) (Nat.div_mul_le_self y w)

theorem sum_map_div_le (l : List Nat) (c w : Nat) :
    (l.map (fun s => s * c / w)).sum ≤ l.sum * c / w := by
  induction l with
  | nil => simp
  | cons a t ih =>
    simp only [List.map_cons, List.sum_cons]
    calc a * c / w + (t.map (fun s => s * c / w)).sum
        ≤ a * c / w + t.sum * c / w := Nat.add_le_add_left ih _
      _ ≤ (a * c + t.sum * c) / w := add_div_le_div _ _ _
      _ = (a + t.sum) * c / w := by rw [Nat.add_mul]

theorem market_fee_eq (g r : Nat) :
    SimpleMarket.market_fee g r =
      if g * r < U64 then some (g * r / 10000) else none := by
  unfold SimpleMarket.market_fee checked_mul checked_div
  split <;> simp

namespace SimpleMarket

theorem winnings_branch_ok {m : MarketAccount} {p : Position} {t w : Nat}
    (h : winnings_branch m p t = .ok w) :
    (m.outcome = .Yes → w = p.yes_amount * t / m.yes_pool) ∧
    (m.outcome = .No → w = p.no_amount * t / m.no_pool) := by
  unfold winnings_branch at h
  split at h
  · next hyes =>
    split at h
    · simp at h
    · split at h
      · simp at h
      · next x hx =>
        simp only [Except.ok.injEq] at h
        subst h
        rw [Option.bind_eq_some] at hx
        obtain ⟨y, hy, hdiv⟩ := hx
        rw [checked_mul_eq_some] at hy
        obtain ⟨-, rfl⟩ := hy
        rw [checked_div_eq_some] at hdiv
        obtain ⟨-, rfl⟩ := hdiv
        refine ⟨fun _ => rfl, fun hno => ?_⟩
        rw [hyes.1] at hno; cases hno
  · split at h
    · next hnotyes hno =>
      split at h
      · simp at h
      · split at h
        · simp at h
        · next x hx =>
          simp only [Except.ok.injEq] at h
          subst h
          rw [Option.bind_eq_some] at hx
          obtain ⟨y, hy, hdiv⟩ := hx
          rw [checked_mul_eq_some] at hy
          obtain ⟨-, rfl⟩ := hy
          rw [checked_div_eq_some] at hdiv
          obtain ⟨-, rfl⟩ := hdiv
          refine ⟨fun hy2 => ?_, fun _ => rfl⟩
          rw [hno.1] at hy2; cases hy2
    · simp at h

theorem claim_winnings_amount
    {m : MarketAccount} {p p' : Position} {amt : Nat}
    (h : claim_winnings m p = .ok (p', amt)) :
    m.status = .Resolved ∧ p.claimed = false ∧ p' = { p with claimed := true } ∧
    (m.outcome = .Yes → amt = payout_formula p.yes_amount m.yes_pool m.no_pool) ∧
    (m.outcome = .No → amt = payout_formula p.no_amount m.no_pool m.yes_pool) := by
  unfold claim_winnings at h
  split at h
  · simp at h
  · next hstat =>
    split at h
    · simp at h
    · next hclaimed =>
      split at h
      · simp at h
      · next total_pool heq =>
        rw [checked_add_eq_some] at heq
        obtain ⟨-, rfl⟩ := heq
        split at h
        · simp at h
        · next w hw =>
          split at h
          · simp at h
          · simp only [Except.ok.injEq, Prod.mk.injEq] at h
            obtain ⟨rfl, rfl⟩ := h
            have hb := winnings_branch_ok hw
            refine ⟨by simpa using hstat, by simpa using hclaimed, rfl, hb.1, ?_⟩
            intro hno
            rw [hb.2 hno]
            unfold payout_formula
            rw [Nat.add_comm m.no_pool m.yes_pool]

end SimpleMarket

namespace RangeMarket

theorem claim_winnings_payout
    {m : MarketAccount} {p p' : Position} {amt : Nat}
    (h : claim_winnings m p = .ok (p', amt)) :
    m.resolved = true ∧ p.claimed = false ∧ p' = { p with claimed := true } ∧
    amt = payout_formula (user_winning_amount m p) (winning_pool m) (losing_pool m) := by
  unfold claim_winnings at h
  split at h
  · simp at h
  · next hres =>
    split at h
    · simp at h
    · next hclaimed =>
      split at h
      · simp at h
      · split at h
        · simp at h
        · next hwp =>
          split at h
          · simp at h
          · next x hx =>
            split at h
            · simp at h
            · next payout hp =>
              simp only [Except.ok.injEq, Prod.mk.injEq] at h
              obtain ⟨rfl, rfl⟩ := h
              rw [Option.bind_eq_some] at hx
              obtain ⟨y, hy, hdiv⟩ := hx
              rw [checked_mul_eq_some] at hy
              obtain ⟨-, rfl⟩ := hy
              rw [checked_div_eq_some] at hdiv
              obtain ⟨-, rfl⟩ := hdiv
              rw [checked_add_eq_some] at hp
              obtain ⟨-, rfl⟩ := hp
              exact ⟨by simpa using hres, by simpa using hclaimed, rfl, rfl⟩

end RangeMarket

/-- C1, counterexample: the claim asserts the fee multiplication in
`take_position` uses a wide intermediate and never overflows for any gross
amount and any rate at most 10000 bps.  In fact `take_position` multiplies
in `u64`: at gross `2^63` and rate 3 bps the multiplication overflows and
the instruction aborts with `Overflow`. -/
theorem C1_counterexample :
    (3 : Nat) ≤ 10000 ∧
    SimpleMarket.market_fee (2 ^ 63) 3 = none ∧
    SimpleMarket.take_position 3 0
      { resolution_time := 1, yes_pool := 0, no_pool := 0,
        status := .Open, outcome := .Unresolved, total_fees := 0 }
      { yes_amount := 0, no_amount := 0, claimed := false }
      (2 ^ 63) true = .error .Overflow :=
  ⟨by norm_num, by rfl, by rfl⟩

/-- C1, amended:  the `settle_payment` fee computation (payment
facilitator, u128 intermediate) satisfies the claim in full: for any gross
`g < 2^64` and rate `r ≤ 10000` it succeeds with `fee = g*r/10000` and
`net = g - fee`, and `fee + net = g`.  The market-side `take_position` fee
computation multiplies in u64, so it succeeds exactly when `g * r < 2^64`
(then with the same floor value) and aborts with `Overflow` otherwise. -/
theorem C1_fee_computation (g r : Nat) (hr : r ≤ 10000) (hg : g < U64) :
    PaymentFacilitator.settle_amounts g r
      = .ok (g * r / 10000, g - g * r / 10000) ∧
    g * r / 10000 + (g - g * r / 10000) = g ∧
    (g * r < U64 → SimpleMarket.market_fee g r = some (g * r / 10000)) ∧
    (U64 ≤ g * r → SimpleMarket.market_fee g r = none) := by
  have hfee_le : g * r / 10000 ≤ g := by
    calc g * r / 10000 ≤ g * 10000 / 10000 :=
          Nat.div_le_div_right (Nat.mul_le_mul_left g hr)
      _ = g := Nat.mul_div_cancel g (by norm_num)
  have hmul128 : g * r < U128 := by
    calc g * r ≤ g * 10000 := Nat.mul_le_mul_left g hr
      _ < U64 * 10000 := (Nat.mul_lt_mul_right (by norm_num)).mpr hg
      _ < U128 := by norm_num [U64, U128]
  have hlt : g * r / 10000 < U64 := lt_of_le_of_lt hfee_le hg
  refine ⟨?_, Nat.add_sub_cancel' hfee_le, ?_, ?_⟩
  · unfold PaymentFacilitator.settle_amounts PaymentFacilitator.settle_fee
    unfold checked_mul_u128 checked_div_u128 cast_u64 checked_sub
    simp [hmul128, Nat.mod_eq_of_lt hlt, hfee_le]
  · intro h64
    rw [market_fee_eq, if_pos h64]
  · intro hge
    rw [market_fee_eq, if_neg (not_lt.mpr hge)]

/-- C1 witness: concrete instance of the amended fee theorem. -/
theorem C1_fee_computation_witness :
    PaymentFacilitator.settle_amounts 1000000000000 200
      = .ok (1000000000000 * 200 / 10000, 1000000000000 - 1000000000000 * 200 / 10000) ∧
    1000000000000 * 200 / 10000 + (1000000000000 - 1000000000000 * 200 / 10000)
      = 1000000000000 ∧
    (1000000000000 * 200 < U64 →
      SimpleMarket.market_fee 1000000000000 200 = some (1000000000000 * 200 / 10000)) ∧
    (U64 ≤ 1000000000000 * 200 → SimpleMarket.market_fee 1000000000000 200 = none) :=
  C1_fee_computation 1000000000000 200 (by norm_num) (by norm_num [U64])

/-- C9: the two payout formulas agree: for every stake `s`, winning pool
`w > 0` and losing pool `l`, `floor(s*(w+l)/w) = s + floor(s*l/w)`; the
simple market's `stake * total_pool / winning_pool` and the range-style
`stake + stake * losing_pool / winning_pool` compute the same amount. -/
theorem C9_payout_formulas_agree (s l w : Nat) (hw : 0 < w) :
    SimpleMarket.payout_formula s w l = RangeMarket.payout_formula s w l := by
  unfold SimpleMarket.payout_formula RangeMarket.payout_formula
  rw [Nat.mul_add, Nat.mul_comm s w, Nat.mul_add_div hw]

/-- C9 witness. -/
theorem C9_payout_formulas_agree_witness :
    SimpleMarket.payout_formula 3 2 5 = RangeMarket.payout_formula 3 2 5 :=
  C9_payout_formulas_agree 3 5 2 (by decide)

/-- C7: for a resolved market whose winning pool is `w > 0` and whose
winning-side stakes sum exactly to `w`, the total of the integer-floor
payouts paid by `claim_winnings` never exceeds `w + l`.  The first two
conjuncts tie the code's `claim_winnings` to the payout formulas; the last
two bound the sums of both formulas. -/
theorem C7_payouts_bounded (stakes : List Nat) (w l : Nat)
    (hw : 0 < w) (hsum : stakes.sum = w) :
    (∀ (m : SimpleMarket.MarketAccount) (p p' : SimpleMarket.Position) (amt : Nat),
        SimpleMarket.claim_winnings m p = .ok (p', amt) →
          (m.outcome = .Yes →
            amt = SimpleMarket.payout_formula p.yes_amount m.yes_pool m.no_pool) ∧
          (m.outcome = .No →
            amt = SimpleMarket.payout_formula p.no_amount m.no_pool m.yes_pool)) ∧
    (∀ (m : RangeMarket.MarketAccount) (p p' : RangeMarket.Position) (amt : Nat),
        RangeMarket.claim_winnings m p = .ok (p', amt) →
          amt = RangeMarket.payout_formula (RangeMarket.user_winning_amount m p)
            (RangeMarket.winning_pool m) (RangeMarket.losing_pool m)) ∧
    (stakes.map (fun s => SimpleMarket.payout_formula s w l)).sum ≤ w + l ∧
    (stakes.map (fun s => RangeMarket.payout_formula s w l)).sum ≤ w + l := by
  refine ⟨fun m p p' amt h => ⟨(SimpleMarket.claim_winnings_amount h).2.2.2.1,
            (SimpleMarket.claim_winnings_amount h).2.2.2.2⟩,
          fun m p p' amt h => (RangeMarket.claim_winnings_payout h).2.2.2, ?_, ?_⟩
  · unfold SimpleMarket.payout_formula
    calc (stakes.map (fun s => s * (w + l) / w)).sum
        ≤ stakes.sum * (w + l) / w := sum_map_div_le stakes (w + l) w
      _ = w * (w + l) / w := by rw [hsum]
      _ = w + l := Nat.mul_div_cancel_left (w + l) hw
  · unfold RangeMarket.payout_formula
    rw [List.sum_map_add]
    have h1 : (stakes.map (fun s => s)).sum = w := by simpa using hsum
    have h2 : (stakes.map (fun s => s * l / w)).sum ≤ l := by
      calc (stakes.map (fun s => s * l / w)).sum
          ≤ stakes.sum * l / w := sum_map_div_le stakes l w
        _ = w * l / w := by rw [hsum]
        _ = l := Nat.mul_div_cancel_left l hw
    rw [h1]
    exact Nat.add_le_add_left h2 w

/-- C7 witness: two winners staking 60 and 40 of a winning pool of 100
against a losing pool of 50 receive at most 150 in total, under both
formulas. -/
theorem C7_payouts_bounded_witness :
    (([60, 40] : List Nat).map
        (fun s => SimpleMarket.payout_formula s 100 50)).sum ≤ 100 + 50 ∧
    (([60, 40] : List Nat).map
        (fun s => RangeMarket.payout_formula s 100 50)).sum ≤ 100 + 50 :=
  ⟨(C7_payouts_bounded [60, 40] 100 50 (by decide) (by decide)).2.2.1,
   (C7_payouts_bounded [60, 40] 100 50 (by decide) (by decide)).2.2.2⟩

end Trace9Spec

namespace Trace9Spec

theorem isOk_ok {ε α : Type} (a : α) : isOk (Except.ok a : Except ε α) = true := rfl

theorem isOk_error {ε α : Type} (e : ε) : isOk (Except.error e : Except ε α) = false := rfl

namespace SimpleMarket

theorem claim_winnings_claimed {m : MarketAccount} {p : Position}
    (hs : m.status = .Resolved) (hc : p.claimed = true) :
    claim_winnings m p = .error .AlreadyClaimed := by
  unfold claim_winnings
  rw [if_neg (by simp [hs]), if_pos hc]

theorem claim_winnings_not_ok {m : MarketAccount} {p : Position}
    (hc : p.claimed = true) : ∀ q, claim_winnings m p ≠ .ok q := by
  intro q h
  unfold claim_winnings at h
  rw [if_pos hc] at h
  split at h <;> simp at h

theorem claim_refund_claimed {m : MarketAccount} {p : Position}
    (hs : m.status = .Canceled) (hc : p.claimed = true) :
    claim_refund m p = .error .AlreadyClaimed := by
  unfold claim_refund
  rw [if_neg (by simp [hs]), if_pos hc]

theorem claim_refund_not_ok {m : MarketAccount} {p : Position}
    (hc : p.claimed = true) : ∀ q, claim_refund m p ≠ .ok q := by
  intro q h
  unfold claim_refund at h
  rw [if_pos hc] at h
  split at h <;> simp at h

theorem claim_refund_ok {m : MarketAccount} {p p' : Position} {amt : Nat}
    (h : claim_refund m p = .ok (p', amt)) :
    m.status = .Canceled ∧ p.claimed = false ∧ p' = { p with claimed := true } ∧
    amt = p.yes_amount + p.no_amount := by
  unfold claim_refund at h
  split at h
  · simp at h
  · next hstat =>
    split at h
    · simp at h
    · next hc =>
      split at h
      · simp at h
      · next ra hra =>
        split at h
        · simp at h
        · simp only [Except.ok.injEq, Prod.mk.injEq] at h
          obtain ⟨rfl, rfl⟩ := h
          rw [checked_add_eq_some] at hra
          obtain ⟨-, rfl⟩ := hra
          exact ⟨by simpa using hstat, by simpa using hc, rfl, rfl⟩

end SimpleMarket

namespace ConditionalMarket

theorem get_refund_claimed {m : MarketAccount} {p : Position}
    (hs : m.status = .ConditionNotMet ∨ m.status = .Cancelled)
    (hc : p.claimed = true) :
    get_refund m p = .error .AlreadyClaimed := by
  unfold get_refund
  rw [if_neg (not_not_intro hs), if_pos hc]

theorem get_refund_not_ok {m : MarketAccount} {p : Position}
    (hc : p.claimed = true) : ∀ q, get_refund m p ≠ .ok q := by
  intro q h
  unfold get_refund at h
  rw [if_pos hc] at h
  split at h <;> simp at h

theorem get_refund_ok {m : MarketAccount} {p p' : Position} {amt : Nat}
    (h : get_refund m p = .ok (p', amt)) :
    (m.status = .ConditionNotMet ∨ m.status = .Cancelled) ∧ p.claimed = false ∧
    p' = { p with claimed := true } ∧ amt = p.yes_amount + p.no_amount := by
  unfold get_refund at h
  split at h
  · simp at h
  · next hstat =>
    split at h
    · simp at h
    · next hc =>
      split at h
      · simp at h
      · next ra hra =>
        split at h
        · simp at h
        · simp only [Except.ok.injEq, Prod.mk.injEq] at h
          obtain ⟨rfl, rfl⟩ := h
          rw [checked_add_eq_some] at hra
          obtain ⟨-, rfl⟩ := hra
          exact ⟨not_not.mp hstat, by simpa using hc, rfl, rfl⟩

end ConditionalMarket

/-- C3: a claim succeeds at most once per (market, participant) position.
The first successful `claim_winnings` / `claim_refund` / `get_refund` call
returns the position with the `claimed` flag set (the flag is set before
the lamport transfer in the handler body; an aborted transaction transfers
nothing), and on a claimed position every later claim or refund attempt
fails — with `AlreadyClaimed` — and hence changes no state and transfers
zero funds. -/
theorem C3_at_most_once :
    (∀ (m : SimpleMarket.MarketAccount) (p p' : SimpleMarket.Position) (amt : Nat),
        SimpleMarket.claim_winnings m p = .ok (p', amt) →
          p'.claimed = true ∧
          SimpleMarket.claim_winnings m p' = .error .AlreadyClaimed ∧
          (∀ q, SimpleMarket.claim_refund m p' ≠ .ok q)) ∧
    (∀ (m : SimpleMarket.MarketAccount) (p p' : SimpleMarket.Position) (amt : Nat),
        SimpleMarket.claim_refund m p = .ok (p', amt) →
          p'.claimed = true ∧
          SimpleMarket.claim_refund m p' = .error .AlreadyClaimed ∧
          (∀ q, SimpleMarket.claim_winnings m p' ≠ .ok q)) ∧
    (∀ (m : ConditionalMarket.MarketAccount) (p p' : ConditionalMarket.Position) (amt : Nat),
        ConditionalMarket.get_refund m p = .ok (p', amt) →
          p'.claimed = true ∧
          ConditionalMarket.get_refund m p' = .error .AlreadyClaimed) ∧
    (∀ (m : SimpleMarket.MarketAccount) (p : SimpleMarket.Position),
        p.claimed = true →
          (∀ q, SimpleMarket.claim_winnings m p ≠ .ok q) ∧
          (∀ q, SimpleMarket.claim_refund m p ≠ .ok q)) ∧
    (∀ (m : ConditionalMarket.MarketAccount) (p : ConditionalMarket.Position),
        p.claimed = true → ∀ q, ConditionalMarket.get_refund m p ≠ .ok q) := by
  refine ⟨?_, ?_, ?_, ?_, ?_⟩
  · intro m p p' amt h
    obtain ⟨hst, -, rfl, -, -⟩ := SimpleMarket.claim_winnings_amount h
    exact ⟨rfl, SimpleMarket.claim_winnings_claimed hst rfl,
           SimpleMarket.claim_refund_not_ok rfl⟩
  · intro m p p' amt h
    obtain ⟨hst, -, rfl, -⟩ := SimpleMarket.claim_refund_ok h
    exact ⟨rfl, SimpleMarket.claim_refund_claimed hst rfl,
           SimpleMarket.claim_winnings_not_ok rfl⟩
  · intro m p p' amt h
    obtain ⟨hst, -, rfl, -⟩ := ConditionalMarket.get_refund_ok h
    exact ⟨rfl, ConditionalMarket.get_refund_claimed hst rfl⟩
  · intro m p hc
    exact ⟨SimpleMarket.claim_winnings_not_ok hc, SimpleMarket.claim_refund_not_ok hc⟩
  · intro m p hc
    exact ConditionalMarket.get_refund_not_ok hc

/-- C3 witness: a sole YES winner claims 150 of a 100/50 market; the
returned position is claimed; the second call fails with `AlreadyClaimed`. -/
theorem C3_at_most_once_witness :
    SimpleMarket.Position.claimed { yes_amount := 100, no_amount := 0, claimed := true } = true ∧
    SimpleMarket.claim_winnings
      { resolution_time := 0, yes_pool := 100, no_pool := 50, status := .Resolved,
        outcome := .Yes, total_fees := 0 }
      { yes_amount := 100, no_amount := 0, claimed := true }
      = .error .AlreadyClaimed :=
  ⟨(C3_at_most_once.1
      { resolution_time := 0, yes_pool := 100, no_pool := 50, status := .Resolved,
        outcome := .Yes, total_fees := 0 }
      { yes_amount := 100, no_amount := 0, claimed := false }
      { yes_amount := 100, no_amount := 0, claimed := true } 150 (by rfl)).1,
   (C3_at_most_once.1
      { resolution_time := 0, yes_pool := 100, no_pool := 50, status := .Resolved,
        outcome := .Yes, total_fees := 0 }
      { yes_amount := 100, no_amount := 0, claimed := false }
      { yes_amount := 100, no_amount := 0, claimed := true } 150 (by rfl)).2.1⟩

end Trace9Spec

namespace Trace9Spec

/-- C6, counterexample: the claim requires a refund to be possible only
once the current time reaches `deadline + 7 days`.  The code instead
measures the 7-day wait from the question's creation `timestamp`
(trace9 lib.rs line 255): a question created at time 0 with deadline
1000000000 is refundable already at time 604800, far before its deadline
plus the grace period. -/
theorem C6_counterexample :
    Trace9Oracle.refund_question 7
      { requester := 7, bounty := 10000000, timestamp := 0,
        deadline := 1000000000, status := .Pending, refunded := false } 604800
      = .ok ({ requester := 7, bounty := 0, timestamp := 0,
               deadline := 1000000000, status := .Pending, refunded := true },
             10000000) ∧
    (604800 : Int) < 1000000000 + 604800 :=
  ⟨by rfl, by norm_num⟩

/-- C6, amended: `refund_question` succeeds exactly when the caller is the
question's requester, the question is still `Pending` and not yet
refunded, and the current time is at least the question's creation
`timestamp` (not its deadline) plus the 7-day grace period; on success the
bounty is returned to the requester, the question is marked refunded with
its bounty zeroed, and every later refund attempt by the requester fails
with `AlreadyRefunded`. -/
theorem C6_refund_once (caller : Nat) (q : Trace9Oracle.QuestionAccount) (now : Int) :
    (isOk (Trace9Oracle.refund_question caller q now) = true ↔
      caller = q.requester ∧ q.status = .Pending ∧ q.refunded = false ∧
      q.timestamp + Trace9Oracle.refund_period ≤ now) ∧
    (∀ (q' : Trace9Oracle.QuestionAccount) (b : Nat),
      Trace9Oracle.refund_question caller q now = .ok (q', b) →
        b = q.bounty ∧ q'.refunded = true ∧ q'.bounty = 0 ∧
        q'.requester = q.requester ∧
        (∀ now2 : Int,
          Trace9Oracle.refund_question caller q' now2 = .error .AlreadyRefunded)) := by
  constructor
  · unfold Trace9Oracle.refund_question
    split
    · next h1 =>
      simp only [isOk_error, Bool.false_eq_true, false_iff]
      intro hcontra
      exact h1 hcontra.1
    · next h1 =>
      split
      · next h2 =>
        simp only [isOk_error, Bool.false_eq_true, false_iff]
        intro hcontra
        exact h2 hcontra.2.1
      · next h2 =>
        split
        · next h3 =>
          simp only [isOk_error, Bool.false_eq_true, false_iff]
          intro hcontra
          rw [hcontra.2.2.1] at h3
          cases h3
        · next h3 =>
          split
          · next h4 =>
            simp only [isOk_error, Bool.false_eq_true, false_iff]
            intro hcontra
            exact h4 hcontra.2.2.2
          · next h4 =>
            simp only [isOk_ok, true_iff]
            exact ⟨not_not.mp h1, not_not.mp h2,
                   by simpa using h3, not_lt.mp (by simpa using h4)⟩
  · intro q' b h
    unfold Trace9Oracle.refund_question at h
    split at h
    · simp at h
    · next h1 =>
      split at h
      · simp at h
      · next h2 =>
        split at h
        · simp at h
        · next h3 =>
          split at h
          · simp at h
          · simp only [Except.ok.injEq, Prod.mk.injEq] at h
            obtain ⟨rfl, rfl⟩ := h
            refine ⟨rfl, rfl, rfl, rfl, fun now2 => ?_⟩
            unfold Trace9Oracle.refund_question
            rw [if_neg h1, if_neg (by simpa using not_not.mp h2)]
            simp

/-- C6 witness: the refund succeeds at exactly the 7-day mark after
creation for the pending, unrefunded question of requester 7. -/
theorem C6_refund_once_witness :
    isOk (Trace9Oracle.refund_question 7
      { requester := 7, bounty := 5, timestamp := 100,
        deadline := 200, status := .Pending, refunded := false } 604900) = true ↔
      (7 : Nat) = 7 ∧ Trace9Oracle.AnswerStatus.Pending = .Pending ∧ false = false ∧
      (100 : Int) + Trace9Oracle.refund_period ≤ 604900 :=
  (C6_refund_once 7
      { requester := 7, bounty := 5, timestamp := 100,
        deadline := 200, status := .Pending, refunded := false } 604900).1

end Trace9Spec

namespace Trace9Spec

/-- C8: once Resolved or Cancelled (or the resolved flag is set), every
`take_position`, resolve, or cancel call fails with a precondition error —
hence changes no state — and the status never leaves the terminal state
(the only status-writing handlers are exactly these, and they all abort). -/
theorem C8_terminal_states (fp : Nat) (now : Int) :
    (∀ (m : SimpleMarket.MarketAccount) (p : SimpleMarket.Position)
       (bet acc : Nat) (iy : Bool) (ans : OracleAnswer),
        m.status = .Resolved ∨ m.status = .Canceled →
          SimpleMarket.take_position fp now m p bet iy = .error .MarketNotOpen ∧
          SimpleMarket.resolve_market m acc now ans = .error .MarketNotOpen ∧
          SimpleMarket.cancel_market m now ans = .error .MarketNotOpen) ∧
    (∀ (m : ConditionalMarket.MarketAccount) (p : ConditionalMarket.Position)
       (bet : Nat) (pred o : Bool) (parent : ConditionalMarket.ParentOutcome),
        m.status = .Resolved ∨ m.status = .Cancelled →
          ConditionalMarket.take_position fp m p bet pred = .error .MarketNotActive ∧
          ConditionalMarket.resolve_market m now o = .error .CannotResolve ∧
          ConditionalMarket.check_parent_market m parent = .error .MarketNotActive) ∧
    (∀ (m : RangeMarket.MarketAccount) (p : RangeMarket.Position)
       (bet : Nat) (pir : Bool) (ans : OracleAnswer),
        m.resolved = true →
          RangeMarket.take_position fp now m p bet pir = .error .AlreadyResolved ∧
          RangeMarket.resolve_market m now ans = .error .AlreadyResolved) ∧
    (∀ (m : TimeSeriesMarket.MarketAccount) (p : TimeSeriesMarket.Position)
       (bet : Nat) (pas : Bool),
        m.all_resolved = true →
          TimeSeriesMarket.take_position fp m p bet pas = .error .MarketResolved) := by
  refine ⟨?_, ?_, ?_, ?_⟩
  · intro m p bet acc iy ans hst
    obtain h | h := hst <;>
      exact ⟨by simp [SimpleMarket.take_position, h],
             by simp [SimpleMarket.resolve_market, h],
             by simp [SimpleMarket.cancel_market, h]⟩
  · intro m p bet pred o parent hst
    obtain h | h := hst <;>
      exact ⟨by simp [ConditionalMarket.take_position, h],
             by simp [ConditionalMarket.resolve_market, h],
             by simp [ConditionalMarket.check_parent_market, h]⟩
  · intro m p bet pir ans h
    exact ⟨by simp [RangeMarket.take_position, h],
           by simp [RangeMarket.resolve_market, h]⟩
  · intro m p bet pas h
    simp [TimeSeriesMarket.take_position, h]

/-- C8 witness: a resolved simple market and a cancelled conditional market
reject every state-changing call. -/
theorem C8_terminal_states_witness :
    SimpleMarket.take_position 200 0
      { resolution_time := 10, yes_pool := 3, no_pool := 4, status := .Resolved,
        outcome := .Yes, total_fees := 1 }
      { yes_amount := 0, no_amount := 0, claimed := false } 50 true
      = .error .MarketNotOpen ∧
    SimpleMarket.resolve_market
      { resolution_time := 10, yes_pool := 3, no_pool := 4, status := .Resolved,
        outcome := .Yes, total_fees := 1 } 0 0 ⟨80, true, 1⟩
      = .error .MarketNotOpen ∧
    SimpleMarket.cancel_market
      { resolution_time := 10, yes_pool := 3, no_pool := 4, status := .Resolved,
        outcome := .Yes, total_fees := 1 } 0 ⟨80, true, 1⟩
      = .error .MarketNotOpen :=
  (C8_terminal_states 200 0).1
    { resolution_time := 10, yes_pool := 3, no_pool := 4, status := .Resolved,
      outcome := .Yes, total_fees := 1 }
    { yes_amount := 0, no_amount := 0, claimed := false } 50 0 true ⟨80, true, 1⟩
    (Or.inl rfl)

/-- C4, counterexample: the claim says every market variant rejects a
resolution whose oracle answer has confidence 0.  The range market does
not: its gate is `numeric_answer > 0`, so an answer with confidence 0 and
numeric value 15 resolves the market successfully. -/
theorem C4_counterexample :
    OracleAnswer.confidence_score ⟨0, false, 15⟩ = 0 ∧
    RangeMarket.resolve_market
      { lower_bound := 10, upper_bound := 20, in_range_pool := 0,
        out_range_pool := 0, total_fees := 0, deadline := 0, resolved_at := 0,
        resolved := false, in_range := false }
      0 ⟨0, false, 15⟩
      = .ok { lower_bound := 10, upper_bound := 20, in_range_pool := 0,
              out_range_pool := 0, total_fees := 0, deadline := 0,
              resolved_at := 0, resolved := true, in_range := true } :=
  ⟨rfl, by rfl⟩

/-- C4, amended: the simple and multi-outcome markets reject resolution
with `OracleNotAnswered` when the answer's confidence score is 0; the
range market's `resolve_market` and the time-series market's
`resolve_period` instead reject with `OracleNotAnswered` exactly when the
numeric answer is 0, and ignore the confidence score entirely (two answers
agreeing on the numeric value resolve identically, whatever their
confidence). -/
theorem C4_resolution_gate :
    (∀ (m : SimpleMarket.MarketAccount) (acc : Nat) (now : Int) (ans : OracleAnswer),
        m.status = .Open → m.resolution_time ≤ now → ans.confidence_score = 0 →
        SimpleMarket.resolve_market m acc now ans = .error .OracleNotAnswered) ∧
    (∀ (m : MultiOutcomeMarket.MarketAccount) (acc : Nat) (now : Int) (ans : OracleAnswer),
        m.status = .Open → m.resolution_time ≤ now →
        ans.numeric_answer % 256 < m.num_outcomes → ans.confidence_score = 0 →
        MultiOutcomeMarket.resolve_market m acc now ans = .error .OracleNotAnswered) ∧
    (∀ (m : RangeMarket.MarketAccount) (now : Int) (ans : OracleAnswer),
        m.resolved = false → m.deadline ≤ now → ans.numeric_answer = 0 →
        RangeMarket.resolve_market m now ans = .error .OracleNotAnswered) ∧
    (∀ (m : RangeMarket.MarketAccount) (now : Int) (c₁ c₂ : Nat) (b₁ b₂ : Bool) (n : Nat),
        RangeMarket.resolve_market m now ⟨c₁, b₁, n⟩
          = RangeMarket.resolve_market m now ⟨c₂, b₂, n⟩) ∧
    (∀ (m : TimeSeriesMarket.MarketAccount) (i : Nat) (now : Int) (ans : OracleAnswer),
        i < m.periods.length →
        (m.periods.getD i ⟨0, 0, 0, false⟩).resolved = false →
        (m.periods.getD i ⟨0, 0, 0, false⟩).deadline ≤ now →
        ans.numeric_answer = 0 →
        TimeSeriesMarket.resolve_period m i now ans = .error .OracleNotAnswered) ∧
    (∀ (m : TimeSeriesMarket.MarketAccount) (i : Nat) (now : Int)
       (c₁ c₂ : Nat) (b₁ b₂ : Bool) (n : Nat),
        TimeSeriesMarket.resolve_period m i now ⟨c₁, b₁, n⟩
          = TimeSeriesMarket.resolve_period m i now ⟨c₂, b₂, n⟩) := by
  refine ⟨?_, ?_, ?_, ?_, ?_, ?_⟩
  · intro m acc now ans hst ht hc
    simp [SimpleMarket.resolve_market, hst, ht, hc]
  · intro m acc now ans hst ht hb hc
    simp [MultiOutcomeMarket.resolve_market, hst, ht, hb, hc]
  · intro m now ans hres ht hn
    simp [RangeMarket.resolve_market, hres, ht, hn]
  · intro m now c₁ c₂ b₁ b₂ n
    rfl
  · intro m i now ans hi hres ht hn
    rw [List.getD_eq_getElem _ _ hi] at hres ht
    simp [TimeSeriesMarket.resolve_period, hi, hres, ht, hn]
  · intro m i now c₁ c₂ b₁ b₂ n
    rfl

/-- C4 witness: a confidence-0 answer is rejected by the simple market,
and a numeric-0 answer is rejected by the range market. -/
theorem C4_resolution_gate_witness :
    SimpleMarket.resolve_market
      { resolution_time := 10, yes_pool := 3, no_pool := 4, status := .Open,
        outcome := .Unresolved, total_fees := 1 } 0 10 ⟨0, true, 9⟩
      = .error .OracleNotAnswered ∧
    RangeMarket.resolve_market
      { lower_bound := 10, upper_bound := 20, in_range_pool := 0,
        out_range_pool := 0, total_fees := 0, deadline := 0, resolved_at := 0,
        resolved := false, in_range := false } 0 ⟨90, true, 0⟩
      = .error .OracleNotAnswered :=
  ⟨C4_resolution_gate.1
      { resolution_time := 10, yes_pool := 3, no_pool := 4, status := .Open,
        outcome := .Unresolved, total_fees := 1 } 0 10 ⟨0, true, 9⟩
      rfl (by norm_num) rfl,
   C4_resolution_gate.2.2.1
      { lower_bound := 10, upper_bound := 20, in_range_pool := 0,
        out_range_pool := 0, total_fees := 0, deadline := 0, resolved_at := 0,
        resolved := false, in_range := false } 0 ⟨90, true, 0⟩
      rfl (by norm_num) rfl⟩

end Trace9Spec

namespace Trace9Spec

/-- C5, counterexample: the claim says a conditional market can only reach
`Resolved` after the parent-check step observed the required parent
outcome.  In fact `resolve_market` also accepts status `Active`
(conditional_market lib.rs lines 160-164): a freshly created market on
which `check_parent_market` was never called resolves successfully. -/
theorem C5_counterexample :
    ConditionalMarket.resolve_market
      { required_parent_outcome := 1, yes_pool := 0, no_pool := 0,
        total_fees := 0, resolved_at := 0, status := .Active,
        final_outcome := false } 5 true
      = .ok { required_parent_outcome := 1, yes_pool := 0, no_pool := 0,
              total_fees := 0, resolved_at := 5, status := .Resolved,
              final_outcome := true } := by
  rfl

/-- C5, amended: `resolve_market` succeeds exactly from `Active` or
`ParentUnresolved` (so the parent check is not a prerequisite); when the
parent-check step runs and the parent's outcome does not match the
required value, the market moves to `ConditionNotMet`, and from
`ConditionNotMet` every status-writing handler (`take_position`,
`check_parent_market`, `resolve_market`) fails, so such a market can never
become `Resolved`. -/
theorem C5_condition_not_met (fp : Nat) (now : Int) :
    (∀ (m m' : ConditionalMarket.MarketAccount) (o : Bool),
        ConditionalMarket.resolve_market m now o = .ok m' →
          (m.status = .Active ∨ m.status = .ParentUnresolved) ∧
          m'.status = .Resolved) ∧
    (∀ (m : ConditionalMarket.MarketAccount),
        m.status = .Active ∨ m.status = .ParentUnresolved →
          ∀ o : Bool, isOk (ConditionalMarket.resolve_market m now o) = true) ∧
    (∀ (m m' : ConditionalMarket.MarketAccount)
       (parent : ConditionalMarket.ParentOutcome),
        ConditionalMarket.check_parent_market m parent = .ok m' →
          (ConditionalMarket.condition_met m parent →
            m'.status = .ParentUnresolved) ∧
          (¬ ConditionalMarket.condition_met m parent →
            m'.status = .ConditionNotMet)) ∧
    (∀ (m : ConditionalMarket.MarketAccount) (p : ConditionalMarket.Position)
       (bet : Nat) (pred o : Bool) (parent : ConditionalMarket.ParentOutcome),
        m.status = .ConditionNotMet →
          ConditionalMarket.take_position fp m p bet pred
            = .error .MarketNotActive ∧
          ConditionalMarket.check_parent_market m parent
            = .error .MarketNotActive ∧
          ConditionalMarket.resolve_market m now o = .error .CannotResolve) := by
  refine ⟨?_, ?_, ?_, ?_⟩
  · intro m m' o h
    unfold ConditionalMarket.resolve_market at h
    split at h
    · simp at h
    · next hst =>
      simp only [Except.ok.injEq] at h
      subst h
      exact ⟨(not_not.mp hst).symm, rfl⟩
  · intro m hst o
    unfold ConditionalMarket.resolve_market
    rw [if_neg (not_not_intro hst.symm)]
    exact isOk_ok _
  · intro m m' parent h
    unfold ConditionalMarket.check_parent_market at h
    split at h
    · simp at h
    · split at h
      · simp at h
      · split at h
        · next hc =>
          simp only [Except.ok.injEq] at h
          subst h
          exact ⟨fun _ => rfl, fun hn => absurd hc hn⟩
        · next hc =>
          simp only [Except.ok.injEq] at h
          subst h
          exact ⟨fun hcm => absurd hcm hc, fun _ => rfl⟩
  · intro m p bet pred o parent hst
    exact ⟨by simp [ConditionalMarket.take_position, hst],
           by simp [ConditionalMarket.check_parent_market, hst],
           by simp [ConditionalMarket.resolve_market, hst]⟩

end Trace9Spec

namespace Trace9Spec

/-- C5 witness: a `ConditionNotMet` market rejects every status-writing
call. -/
theorem C5_condition_not_met_witness :
    ConditionalMarket.take_position 200
      { required_parent_outcome := 1, yes_pool := 7, no_pool := 8,
        total_fees := 2, resolved_at := 0, status := .ConditionNotMet,
        final_outcome := false }
      { yes_amount := 7, no_amount := 0, claimed := false } 50 true
      = .error .MarketNotActive ∧
    ConditionalMarket.check_parent_market
      { required_parent_outcome := 1, yes_pool := 7, no_pool := 8,
        total_fees := 2, resolved_at := 0, status := .ConditionNotMet,
        final_outcome := false } { outcome := 1, resolved := true }
      = .error .MarketNotActive ∧
    ConditionalMarket.resolve_market
      { required_parent_outcome := 1, yes_pool := 7, no_pool := 8,
        total_fees := 2, resolved_at := 0, status := .ConditionNotMet,
        final_outcome := false } 0 true
      = .error .CannotResolve :=
  (C5_condition_not_met 200 0).2.2.2
    { required_parent_outcome := 1, yes_pool := 7, no_pool := 8,
      total_fees := 2, resolved_at := 0, status := .ConditionNotMet,
      final_outcome := false }
    { yes_amount := 7, no_amount := 0, claimed := false }
    50 true true { outcome := 1, resolved := true } rfl

/-- C10: the multi-outcome `resolve_market` truncates the oracle's 64-bit
numeric answer to 8 bits (`as u8`, i.e. reduction mod 256) before the
bounds check: whenever the other gates pass and `answer mod 256` is a
valid outcome index, resolution succeeds with winning outcome
`answer mod 256`; and two answers whose numeric values differ by 256
resolve the market identically. -/
theorem C10_truncating_resolution (m : MultiOutcomeMarket.MarketAccount)
    (acc : Nat) (now : Int) (ans : OracleAnswer)
    (hst : m.status = .Open) (ht : m.resolution_time ≤ now)
    (hconf : 0 < ans.confidence_score)
    (hbound : ans.numeric_answer % 256 < m.num_outcomes)
    (hacc : acc + m.total_fees < U64) :
    MultiOutcomeMarket.resolve_market m acc now ans
      = .ok ({ m with status := .Resolved,
                       winning_outcome := ans.numeric_answer % 256 },
             acc + m.total_fees) ∧
    (∀ ans2 : OracleAnswer,
      ans2.numeric_answer = ans.numeric_answer + 256 →
      ans2.confidence_score = ans.confidence_score →
      MultiOutcomeMarket.resolve_market m acc now ans2
        = MultiOutcomeMarket.resolve_market m acc now ans) := by
  have hadd : checked_add acc m.total_fees = some (acc + m.total_fees) := by
    rw [checked_add_eq_some]
    exact ⟨hacc, rfl⟩
  constructor
  · simp [MultiOutcomeMarket.resolve_market, hst, ht, hconf, hbound, hadd]
  · intro ans2 hn hc
    unfold MultiOutcomeMarket.resolve_market
    rw [hn, hc, Nat.add_mod_right]

/-- C10 witness: answer 259 on a 5-outcome market resolves to outcome 3. -/
theorem C10_truncating_resolution_witness :
    MultiOutcomeMarket.resolve_market
      { resolution_time := 10, num_outcomes := 5,
        outcome_pools := [1, 2, 3, 4, 5], status := .Open,
        winning_outcome := 0, total_pool := 15, total_fees := 4 }
      100 12 ⟨70, false, 259⟩
      = .ok ({ resolution_time := 10, num_outcomes := 5,
               outcome_pools := [1, 2, 3, 4, 5], status := .Resolved,
               winning_outcome := 259 % 256, total_pool := 15,
               total_fees := 4 }, 100 + 4) :=
  (C10_truncating_resolution
    { resolution_time := 10, num_outcomes := 5,
      outcome_pools := [1, 2, 3, 4, 5], status := .Open,
      winning_outcome := 0, total_pool := 15, total_fees := 4 }
    100 12 ⟨70, false, 259⟩ rfl (by norm_num) (by norm_num)
    (by norm_num) (by norm_num [U64])).1

end Trace9Spec

namespace Trace9Spec

theorem sum_set_getD_add (l : List Nat) (i x : Nat) (h : i < l.length) :
    (l.set i (l.getD i 0 + x)).sum = l.sum + x := by
  induction l generalizing i with
  | nil => simp at h
  | cons a t ih =>
    cases i with
    | zero => simp [List.set]; omega
    | succ n =>
      simp only [List.set, List.getD_cons_succ, List.sum_cons]
      rw [ih n (by simpa using h)]
      omega

namespace SimpleMarket

theorem take_position_ok_delta {fp : Nat} {now : Int} {m : MarketAccount}
    {p : Position} {g : Nat} {b : Bool} {m' : MarketAccount} {p' : Position}
    (h : take_position fp now m p g b = .ok (m', p')) :
    m'.yes_pool + m'.no_pool = m.yes_pool + m.no_pool + net_of fp g ∧
    m'.total_fees = m.total_fees + fee_of fp g ∧
    fee_of fp g ≤ g ∧
    m'.status = m.status ∧ m'.resolution_time = m.resolution_time := by
  unfold take_position at h
  split at h
  · simp at h
  split at h
  · simp at h
  split at h
  · simp at h
  split at h
  · simp at h
  next fee hfee =>
  rw [market_fee_eq] at hfee
  split at hfee
  · simp only [Option.some.injEq] at hfee
    subst hfee
    split at h
    · simp at h
    next net hnet =>
    rw [checked_sub_eq_some] at hnet
    obtain ⟨hfle, rfl⟩ := hnet
    split at h
    · simp at h
    next nf hnf =>
    rw [checked_add_eq_some] at hnf
    obtain ⟨-, rfl⟩ := hnf
    split at h
    · split at h
      · simp at h
      next yp hyp =>
      rw [checked_add_eq_some] at hyp
      obtain ⟨-, rfl⟩ := hyp
      split at h
      · simp at h
      next ya hya =>
      simp only [Except.ok.injEq, Prod.mk.injEq] at h
      obtain ⟨rfl, -⟩ := h
      refine ⟨?_, rfl, hfle, rfl, rfl⟩
      simp only [net_of, fee_of]
      omega
    · split at h
      · simp at h
      next np hnp =>
      rw [checked_add_eq_some] at hnp
      obtain ⟨-, rfl⟩ := hnp
      split at h
      · simp at h
      next na hna =>
      simp only [Except.ok.injEq, Prod.mk.injEq] at h
      obtain ⟨rfl, -⟩ := h
      refine ⟨?_, rfl, hfle, rfl, rfl⟩
      simp only [net_of, fee_of]
      omega
  · simp at hfee

theorem run_cons (fp : Nat) (now : Int)
    (st : MarketAccount × (Nat → Position)) (r : Request) (rs : List Request) :
    run fp now st (r :: rs) =
      match step fp now st r with
      | .error e => .error e
      | .ok st1 => run fp now st1 rs := by
  rw [run, List.foldlM_cons]
  cases step fp now st r <;> rfl

theorem run_conservation (fp : Nat) (now : Int) :
    ∀ (reqs : List Request) (st st' : MarketAccount × (Nat → Position)),
      run fp now st reqs = .ok st' →
        st'.1.yes_pool + st'.1.no_pool + st'.1.total_fees
          = st.1.yes_pool + st.1.no_pool + st.1.total_fees
            + (reqs.map (fun r => r.bet_amount)).sum ∧
        st'.1.yes_pool + st'.1.no_pool
          = st.1.yes_pool + st.1.no_pool
            + (reqs.map (fun r => net_of fp r.bet_amount)).sum ∧
        st'.1.total_fees
          = st.1.total_fees + (reqs.map (fun r => fee_of fp r.bet_amount)).sum := by
  intro reqs
  induction reqs with
  | nil =>
    intro st st' h
    rw [run, List.foldlM_nil] at h
    simp only [pure, Except.pure, Except.ok.injEq] at h
    subst h
    simp
  | cons r rs ih =>
    intro st st' h
    rw [run_cons] at h
    split at h
    · simp at h
    next st1 hstep =>
    unfold step at hstep
    split at hstep
    · simp at hstep
    next m2 p2 htp =>
    simp only [Except.ok.injEq] at hstep
    obtain ⟨hd1, hd2, hfle, -, -⟩ := take_position_ok_delta htp
    obtain ⟨ha, hb, hc⟩ := ih st1 st' h
    have hst1 : st1.1 = m2 := by rw [← hstep]
    rw [hst1] at ha hb hc
    simp only [List.map_cons, List.sum_cons]
    have hnet : net_of fp r.bet_amount = r.bet_amount - fee_of fp r.bet_amount := rfl
    omega

end SimpleMarket

namespace MultiOutcomeMarket

theorem take_position_ok_sum {fp : Nat} {now : Int} {m : MarketAccount}
    {p : Position} {g outcome : Nat} {m' : MarketAccount} {p' : Position}
    (h : take_position fp now m p g outcome = .ok (m', p'))
    (hlen : m.outcome_pools.length = m.num_outcomes) :
    m'.outcome_pools.sum + m'.total_fees
      = m.outcome_pools.sum + m.total_fees + g ∧
    m'.total_pool = m.total_pool + SimpleMarket.net_of fp g := by
  unfold take_position at h
  split at h
  · simp at h
  split at h
  · simp at h
  split at h
  · simp at h
  next hout =>
  split at h
  · simp at h
  split at h
  · simp at h
  next fee hfee =>
  rw [Option.bind_eq_some] at hfee
  obtain ⟨x, hx, hdiv⟩ := hfee
  rw [checked_mul_eq_some] at hx
  obtain ⟨-, rfl⟩ := hx
  rw [checked_div_eq_some] at hdiv
  obtain ⟨-, rfl⟩ := hdiv
  split at h
  · simp at h
  next net hnet =>
  rw [checked_sub_eq_some] at hnet
  obtain ⟨hfle, rfl⟩ := hnet
  split at h
  · simp at h
  next pool2 hpool =>
  rw [checked_add_eq_some] at hpool
  obtain ⟨-, rfl⟩ := hpool
  split at h
  · simp at h
  next tp htp =>
  rw [checked_add_eq_some] at htp
  obtain ⟨-, rfl⟩ := htp
  split at h
  · simp at h
  next tf htf =>
  rw [checked_add_eq_some] at htf
  obtain ⟨-, rfl⟩ := htf
  have hofl : outcome < m.outcome_pools.length := by
    rw [hlen]
    simpa using hout
  split at h
  · simp only [] at h
    split at h
    · simp at h
    next a2 ha2 =>
    simp only [Except.ok.injEq, Prod.mk.injEq] at h
    obtain ⟨rfl, -⟩ := h
    dsimp only
    refine ⟨?_, rfl⟩
    rw [sum_set_getD_add m.outcome_pools outcome _ hofl]
    have hfee : SimpleMarket.fee_of fp g = g * fp / 10000 := rfl
    omega
  · simp only [] at h
    split at h
    · simp at h
    next a2 ha2 =>
    simp only [Except.ok.injEq, Prod.mk.injEq] at h
    obtain ⟨rfl, -⟩ := h
    dsimp only
    refine ⟨?_, rfl⟩
    rw [sum_set_getD_add m.outcome_pools outcome _ hofl]
    have hfee : SimpleMarket.fee_of fp g = g * fp / 10000 := rfl
    omega

end MultiOutcomeMarket

end Trace9Spec

namespace Trace9Spec

/-- C2, counterexample: the claim's conservation equation says the side
pools plus `total_fees` equal the sum of the accepted *net* amounts.  One
successful 10000-lamport stake at 200 bps leaves the pools plus fees at
10000 (the gross amount), while the sum of accepted net amounts is 9800. -/
theorem C2_counterexample :
    (SimpleMarket.run 200 0
        ({ resolution_time := 1, yes_pool := 0, no_pool := 0, status := .Open,
           outcome := .Unresolved, total_fees := 0 },
         fun _ => { yes_amount := 0, no_amount := 0, claimed := false })
        [{ user := 0, bet_amount := 10000, is_yes := true }]).map
      (fun st => st.1.yes_pool + st.1.no_pool + st.1.total_fees) = .ok 10000 ∧
    (([{ user := 0, bet_amount := 10000, is_yes := true }] :
        List SimpleMarket.Request).map
      (fun r => SimpleMarket.net_of 200 r.bet_amount)).sum = 9800 ∧
    (10000 : Nat) ≠ 9800 :=
  ⟨by rfl, by rfl, by norm_num⟩

/-- C2, amended: after any sequence of successful `take_position` calls,
the sum of the side pools plus the market's `total_fees` equals the sum of
the *gross* amounts of all accepted stakes; the pools alone account for
the accepted net amounts, and `total_fees` alone for the fees.  The same
per-call balance holds for the multi-outcome market's `take_position`. -/
theorem C2_conservation (fp : Nat) (now : Int) :
    (∀ (st st' : SimpleMarket.MarketAccount × (Nat → SimpleMarket.Position))
       (reqs : List SimpleMarket.Request),
        SimpleMarket.run fp now st reqs = .ok st' →
          st'.1.yes_pool + st'.1.no_pool + st'.1.total_fees
            = st.1.yes_pool + st.1.no_pool + st.1.total_fees
              + (reqs.map (fun r => r.bet_amount)).sum ∧
          st'.1.yes_pool + st'.1.no_pool
            = st.1.yes_pool + st.1.no_pool
              + (reqs.map (fun r => SimpleMarket.net_of fp r.bet_amount)).sum ∧
          st'.1.total_fees
            = st.1.total_fees
              + (reqs.map (fun r => SimpleMarket.fee_of fp r.bet_amount)).sum) ∧
    (∀ (m : MultiOutcomeMarket.MarketAccount) (p : MultiOutcomeMarket.Position)
       (g outcome : Nat) (m' : MultiOutcomeMarket.MarketAccount)
       (p' : MultiOutcomeMarket.Position),
        MultiOutcomeMarket.take_position fp now m p g outcome = .ok (m', p') →
        m.outcome_pools.length = m.num_outcomes →
          m'.outcome_pools.sum + m'.total_fees
            = m.outcome_pools.sum + m.total_fees + g) := by
  constructor
  · intro st st' reqs h
    exact SimpleMarket.run_conservation fp now reqs st st' h
  · intro m p g outcome m' p' h hlen
    exact (MultiOutcomeMarket.take_position_ok_sum h hlen).1

/-- C2 witness: two stakes of 10000 and 500 at 200 bps leave the pools
plus fees equal to the 10500 gross total (9800 + 490 in the pools, 210 in
fees). -/
theorem C2_conservation_witness :
    (9800 : Nat) + 490 + 210
      = 0 + 0 + 0
        + (([{ user := 0, bet_amount := 10000, is_yes := true },
             { user := 1, bet_amount := 500, is_yes := false }] :
            List SimpleMarket.Request).map (fun r => r.bet_amount)).sum :=
  ((C2_conservation 200 0).1
    ({ resolution_time := 1, yes_pool := 0, no_pool := 0, status := .Open,
       outcome := .Unresolved, total_fees := 0 },
     fun _ => { yes_amount := 0, no_amount := 0, claimed := false })
    ({ resolution_time := 1, yes_pool := 9800, no_pool := 490, status := .Open,
       outcome := .Unresolved, total_fees := 210 },
     Function.update
       (Function.update
         (fun _ => { yes_amount := 0, no_amount := 0, claimed := false })
         0 { yes_amount := 9800, no_amount := 0, claimed := false })
       1 { yes_amount := 0, no_amount := 490, claimed := false })
    [{ user := 0, bet_amount := 10000, is_yes := true },
     { user := 1, bet_amount := 500, is_yes := false }]
    (by rfl)).1

end Trace9Spec
